import Mathlib

/-
Verification of the moderation and command pipeline of a WhatsApp bot
(`src/main.js`).  The JavaScript message handler is shallowly embedded:
strings are Lean `String`s (character based, which agrees with the
JavaScript code-unit view on all non-astral text used here), timestamps
are `Int` milliseconds, and the asynchronous collaborator calls
(`reply`, `sendMessage`, `delete`, `removeParticipants`, profile-status
updates) are recorded as a list of outbound actions.
-/

/-! ## Character and string helpers (JavaScript semantics) -/

/-- The JavaScript `\s` character class (also the set removed by
`String.prototype.trim`): tab, line feed, vertical tab, form feed,
carriage return, space, NBSP, and the Unicode space separators. -/
def isJsWs (c : Char) : Bool :=
  c = ' ' || c = '\t' || c = '\n' || c = '\r' || c.val = 0x0b || c.val = 0x0c ||
  c.val = 0xa0 || c.val = 0x1680 || (0x2000 ≤ c.val && c.val ≤ 0x200a) ||
  c.val = 0x2028 || c.val = 0x2029 || c.val = 0x202f || c.val = 0x205f ||
  c.val = 0x3000 || c.val = 0xfeff

/-- `needle` is a prefix of `hay` (character lists). -/
def hasPrefixCh : List Char → List Char → Bool
  | [], _ => true
  | _ :: _, [] => false
  | c :: cs, d :: ds => if c = d then hasPrefixCh cs ds else false

/-- `needle` occurs somewhere inside `hay` — JavaScript `String.includes`. -/
def hasInfixCh (needle : List Char) : List Char → Bool
  | [] => hasPrefixCh needle []
  | d :: ds => hasPrefixCh needle (d :: ds) || hasInfixCh needle ds

/-- JavaScript `s.includes(sub)`. -/
def strIncludes (s sub : String) : Bool := hasInfixCh sub.data s.data

/-- JavaScript `s.startsWith(p)`. -/
def strStartsWith (s p : String) : Bool := hasPrefixCh p.data s.data

/-- JavaScript `s.slice(n)` (drop the first `n` code units). -/
def strDrop (s : String) (n : Nat) : String := String.mk (s.data.drop n)

/-- JavaScript `s.toLowerCase()` (ASCII range, which is all the source uses). -/
def strLower (s : String) : String := String.mk (s.data.map Char.toLower)

/-- JavaScript `id.split('@')[0]`. -/
def beforeAt (id : String) : String := String.mk (id.data.takeWhile (· ≠ '@'))

/-- JavaScript `s.trim()` on a character list: remove `\s` characters from
both ends. -/
def jsTrimL (l : List Char) : List Char :=
  ((l.dropWhile isJsWs).reverse.dropWhile isJsWs).reverse

/-- JavaScript `s.trim()`. -/
def jsTrim (s : String) : String := String.mk (jsTrimL s.data)

/-- One pass of JavaScript `s.split(/ +/)`: `acc` holds the current token
reversed, `lastSp` records whether the previous character was part of a
run of spaces already split on. -/
def splitGo : List Char → List Char → Bool → List (List Char)
  | [], acc, _ => [acc.reverse]
  | c :: cs, acc, lastSp =>
    if c = ' ' then
      if lastSp then splitGo cs acc true
      else acc.reverse :: splitGo cs [] true
    else splitGo cs (c :: acc) false

/-- JavaScript `s.split(/ +/)` on a character list: split on maximal runs
of space characters. -/
def splitSpacesL (l : List Char) : List (List Char) := splitGo l [] false

/-- JavaScript `s.split(/ +/)`. -/
def splitSpaces (s : String) : List String :=
  (splitSpacesL s.data).map String.mk

/-- JavaScript `args.join(' ')`. -/
def joinSpace : List String → String
  | [] => ""
  | [s] => s
  | s :: rest => s ++ " " ++ joinSpace rest

/-! ## Properties of the string helpers -/

theorem data_mk (l : List Char) : (String.mk l).data = l := rfl

theorem mk_data (s : String) : String.mk s.data = s := rfl

theorem splitGo_nil (acc : List Char) (b : Bool) : splitGo [] acc b = [acc.reverse] := rfl

theorem splitGo_space_true (cs acc : List Char) :
    splitGo (' ' :: cs) acc true = splitGo cs acc true := rfl

theorem splitGo_space_false (cs acc : List Char) :
    splitGo (' ' :: cs) acc false = acc.reverse :: splitGo cs [] true := rfl

theorem splitGo_cons (c : Char) (cs acc : List Char) (b : Bool) (h : c ≠ ' ') :
    splitGo (c :: cs) acc b = splitGo cs (c :: acc) false := by
  simp [splitGo, h]

theorem dropWhile_head_false {p : Char → Bool} :
    ∀ {l : List Char} {a : Char} {as : List Char}, l.dropWhile p = a :: as → p a = false := by
  intro l
  induction l with
  | nil => intro a as h; cases h
  | cons x xs ih =>
    intro a as h
    rw [List.dropWhile_cons] at h
    by_cases hx : p x = true
    · rw [if_pos hx] at h; exact ih h
    · rw [if_neg hx] at h
      cases h
      exact Bool.eq_false_iff.mpr hx

theorem dropWhile_getLast? {p : Char → Bool} :
    ∀ (l : List Char), l.dropWhile p ≠ [] → (l.dropWhile p).getLast? = l.getLast? := by
  intro l
  induction l with
  | nil => intro h; simp at h
  | cons x xs ih =>
    intro h
    rw [List.dropWhile_cons] at h ⊢
    by_cases hx : p x = true
    · rw [if_pos hx] at h ⊢
      have hxs : xs ≠ [] := by
        intro he; subst he; simp [List.dropWhile] at h
      rw [ih h]
      cases xs with
      | nil => exact absurd rfl hxs
      | cons y ys => rw [List.getLast?_cons_cons]
    · rw [if_neg hx]

theorem jsTrimL_head (l : List Char) :
    ∀ c, (jsTrimL l).head? = some c → isJsWs c = false := by
  intro c hc
  rw [jsTrimL, List.head?_reverse] at hc
  have hne : (l.dropWhile isJsWs).reverse.dropWhile isJsWs ≠ [] := by
    intro he; rw [he] at hc; cases hc
  rw [dropWhile_getLast? _ hne, List.getLast?_reverse] at hc
  cases hmc : l.dropWhile isJsWs with
  | nil => rw [hmc] at hc; cases hc
  | cons a as =>
    rw [hmc] at hc
    simp only [List.head?_cons, Option.some.injEq] at hc
    subst hc
    exact dropWhile_head_false hmc

theorem jsTrimL_last (l : List Char) :
    ∀ c, (jsTrimL l).getLast? = some c → isJsWs c = false := by
  intro c hc
  rw [jsTrimL, List.getLast?_reverse] at hc
  cases hmc : (l.dropWhile isJsWs).reverse.dropWhile isJsWs with
  | nil => rw [hmc] at hc; cases hc
  | cons a as =>
    rw [hmc] at hc
    simp only [List.head?_cons, Option.some.injEq] at hc
    subst hc
    exact dropWhile_head_false hmc

theorem jsTrimL_eq_self (l : List Char)
    (h1 : ∀ c, l.head? = some c → isJsWs c = false)
    (h2 : ∀ c, l.getLast? = some c → isJsWs c = false) : jsTrimL l = l := by
  cases l with
  | nil => rfl
  | cons a as =>
    have ha : isJsWs a = false := h1 a (by simp)
    rw [jsTrimL, List.dropWhile_cons, if_neg (by simp [ha])]
    have hrev : (a :: as).reverse.dropWhile isJsWs = (a :: as).reverse := by
      cases hr : (a :: as).reverse with
      | nil => simp at hr
      | cons b bs =>
        rw [List.dropWhile_cons]
        have hb : (a :: as).getLast? = some b := by
          have := List.head?_reverse (a :: as)
          rw [hr] at this
          simpa using this.symm
        rw [if_neg (by simp [h2 b hb])]
    rw [hrev, List.reverse_reverse]

theorem splitGo_ne_nil : ∀ (l acc : List Char) (b : Bool),
    l.getLast? ≠ some ' ' → (l = [] → acc ≠ []) →
    (acc = [] → b = true ∨ l.head? ≠ some ' ') →
    ∀ t ∈ splitGo l acc b, t ≠ [] := by
  intro l
  induction l with
  | nil =>
    intro acc b _ h2 _ t ht
    simp only [splitGo_nil, List.mem_singleton] at ht
    subst ht
    simpa [List.reverse_eq_nil_iff] using h2 rfl
  | cons c cs ih =>
    intro acc b h1 h2 h3 t ht
    by_cases hc : c = ' '
    · subst hc
      have hcs : cs ≠ [] := by
        intro he; exact h1 (by simp [he])
      have h1' : cs.getLast? ≠ some ' ' := by
        cases cs with
        | nil => exact absurd rfl hcs
        | cons d ds => simpa [List.getLast?_cons_cons] using h1
      cases b with
      | true =>
        rw [splitGo_space_true] at ht
        exact ih acc true h1' (fun he => absurd he hcs) (fun _ => Or.inl rfl) t ht
      | false =>
        have hacc : acc ≠ [] := by
          intro he
          rcases h3 he with h | h
          · cases h
          · exact h (by simp)
        rw [splitGo_space_false] at ht
        rcases List.mem_cons.mp ht with h | h
        · subst h; simpa [List.reverse_eq_nil_iff] using hacc
        · exact ih [] true h1' (fun he => absurd he hcs) (fun _ => Or.inl rfl) t h
    · rw [splitGo_cons c cs acc b hc] at ht
      have h1' : cs.getLast? ≠ some ' ' := by
        cases cs with
        | nil => simp
        | cons d ds => simpa [List.getLast?_cons_cons] using h1
      exact ih (c :: acc) false h1' (fun _ => by simp) (fun he => absurd he (by simp)) t ht

theorem splitGo_true_eq_false (c : Char) (l acc : List Char) (h : c ≠ ' ') :
    splitGo (c :: l) acc true = splitGo (c :: l) acc false := by
  simp [splitGo, h]

theorem splitGo_token (t : List Char) : ∀ (rest acc : List Char),
    (∀ ch ∈ t, ch ≠ ' ') →
    splitGo (t ++ rest) acc false = splitGo rest (t.reverse ++ acc) false := by
  induction t with
  | nil => intro rest acc _; simp
  | cons c cs ih =>
    intro rest acc h
    have hc : c ≠ ' ' := h c (by simp)
    rw [List.cons_append, splitGo_cons c _ acc false hc,
      ih rest (c :: acc) (fun ch hch => h ch (by simp [hch]))]
    congr 1
    simp [List.reverse_cons, List.append_assoc]

/-- Place a single space between consecutive character-list tokens
(`args.join(' ')` at the character level). -/
def joinSp : List (List Char) → List Char
  | [] => []
  | [t] => t
  | t :: ts => t ++ ' ' :: joinSp ts

theorem joinSp_single (t : List Char) : joinSp [t] = t := rfl

theorem joinSp_cons₂ (t u : List Char) (us : List (List Char)) :
    joinSp (t :: u :: us) = t ++ ' ' :: joinSp (u :: us) := rfl

theorem joinSpace_data (ts : List String) :
    (joinSpace ts).data = joinSp (ts.map String.data) := by
  induction ts with
  | nil => rfl
  | cons s rest ih =>
    cases rest with
    | nil => rfl
    | cons u us =>
      show (s ++ " " ++ joinSpace (u :: us)).data = _
      have ih' : (joinSpace (u :: us)).data = joinSp (u.data :: us.map String.data) := by
        rw [ih, List.map_cons]
      rw [List.map_cons, List.map_cons, joinSp_cons₂, String.data_append,
        String.data_append, ih']
      simp

theorem joinSp_ne_nil (t : List Char) (ts : List (List Char)) (h : t ≠ []) :
    joinSp (t :: ts) ≠ [] := by
  cases ts with
  | nil => simpa [joinSp_single] using h
  | cons u us => rw [joinSp_cons₂]; simp

theorem joinSp_head? (t : List Char) (ts : List (List Char)) (h : t ≠ []) :
    (joinSp (t :: ts)).head? = t.head? := by
  cases ts with
  | nil => rw [joinSp_single]
  | cons u us =>
    rw [joinSp_cons₂, List.head?_append]
    cases t with
    | nil => exact absurd rfl h
    | cons a as => simp

theorem getLast?_append_right (l l' : List Char) (h : l' ≠ []) :
    (l ++ l').getLast? = l'.getLast? := by
  rw [List.getLast?_append]
  cases hx : l'.getLast? with
  | none => exact absurd (List.getLast?_eq_none_iff.mp hx) h
  | some z => rfl

theorem joinSp_getLast? : ∀ (ts : List (List Char)) (t : List Char),
    (∀ x ∈ t :: ts, x ≠ []) →
    (joinSp (t :: ts)).getLast? = (ts.getLastD t).getLast? := by
  intro ts
  induction ts with
  | nil => intro t _; rw [joinSp_single]; rfl
  | cons u us ih =>
    intro t h
    have h2 : joinSp (u :: us) ≠ [] := joinSp_ne_nil u us (h u (by simp))
    rw [joinSp_cons₂, getLast?_append_right _ _ (by simp)]
    have h4 : (' ' :: joinSp (u :: us)).getLast? = (joinSp (u :: us)).getLast? := by
      cases hju : joinSp (u :: us) with
      | nil => exact absurd hju h2
      | cons a as => rw [List.getLast?_cons_cons]
    rw [h4, ih u (fun x hx => h x (by simp [hx])), List.getLastD_cons]

theorem splitGo_joinSp : ∀ (ts : List (List Char)), ts ≠ [] →
    (∀ t ∈ ts, t ≠ [] ∧ ∀ ch ∈ t, ch ≠ ' ') →
    splitGo (joinSp ts) [] false = ts := by
  intro ts
  induction ts with
  | nil => intro h _; exact absurd rfl h
  | cons t rest ih =>
    intro _ h
    obtain ⟨htne, htch⟩ := h t (by simp)
    cases rest with
    | nil =>
      rw [joinSp_single]
      calc splitGo t [] false = splitGo (t ++ []) [] false := by rw [List.append_nil]
        _ = splitGo [] (t.reverse ++ []) false := splitGo_token t [] [] htch
        _ = [t] := by simp [splitGo_nil]
    | cons u us =>
      have hu : u ≠ [] := (h u (by simp)).1
      have hhead : ∃ a as, joinSp (u :: us) = a :: as ∧ a ≠ ' ' := by
        have hh : (joinSp (u :: us)).head? = u.head? := joinSp_head? u us hu
        cases hju : joinSp (u :: us) with
        | nil => exact absurd hju (joinSp_ne_nil u us hu)
        | cons a as =>
          refine ⟨a, as, rfl, ?_⟩
          rw [hju] at hh
          simp only [List.head?_cons] at hh
          have ham : a ∈ u := by
            cases u with
            | nil => simp at hh
            | cons b bs =>
              simp only [List.head?_cons, Option.some.injEq] at hh
              simp [hh]
          exact (h u (by simp)).2 a ham
      obtain ⟨a, as, hja, ha⟩ := hhead
      rw [joinSp_cons₂, splitGo_token t _ [] htch, splitGo_space_false, hja,
        splitGo_true_eq_false a as [] ha, ← hja,
        ih (by simp) (fun x hx => h x (by simp [hx]))]
      simp

/-! ## Command parsing (`src/main.js` lines 174–176):
`const args = message.body.slice(prefix.length).trim().split(/ +/);
 const command = args.shift().toLowerCase();` -/

/-- Lines 174–176: strip the command marker, trim, split on runs of space
characters; the first token lowercased is the command name, the remaining
tokens are the args. -/
def parseCommand (pfx body : String) : String × List String :=
  let parts := splitSpaces (jsTrim (strDrop body pfx.length))
  (strLower (parts.headD ""), parts.tail)

theorem parseCommand_args_ne (pfx body : String) :
    ∀ a ∈ (parseCommand pfx body).2, a ≠ "" := by
  intro a ha
  simp only [parseCommand, splitSpaces, jsTrim, strDrop, data_mk] at ha
  by_cases hnil : jsTrimL ((strDrop body pfx.length).data) = []
  · rw [strDrop, data_mk] at hnil
    rw [hnil] at ha
    simp [splitSpacesL, splitGo_nil] at ha
  · rw [strDrop, data_mk] at hnil
    set l0 := body.data.drop pfx.length with hl0
    have hlast : (jsTrimL l0).getLast? ≠ some ' ' := by
      intro hc
      have := jsTrimL_last l0 ' ' hc
      simp [isJsWs] at this
    have hhead : (jsTrimL l0).head? ≠ some ' ' := by
      intro hc
      have := jsTrimL_head l0 ' ' hc
      simp [isJsWs] at this
    have hall := splitGo_ne_nil (jsTrimL l0) [] false hlast
      (fun he => absurd he hnil) (fun _ => Or.inr hhead)
    have ha' : a ∈ (splitSpacesL (jsTrimL l0)).map String.mk := List.mem_of_mem_tail ha
    obtain ⟨t, htmem, rfl⟩ := List.mem_map.mp ha'
    have htne : t ≠ [] := hall t htmem
    intro he
    apply htne
    simpa using congrArg String.data he

/-- Modelled from the claim's wording only (to state the counterexample):
split the prefix-stripped text on maximal runs of whitespace. -/
def splitWsGo : List Char → List Char → List (List Char)
  | [], acc => if acc = [] then [] else [acc.reverse]
  | c :: cs, acc =>
    if isJsWs c then
      (if acc = [] then splitWsGo cs [] else acc.reverse :: splitWsGo cs [])
    else splitWsGo cs (c :: acc)

/-- Modelled from the claim's wording only: the parser the claim
describes, splitting the prefix-stripped text on runs of whitespace. -/
def claimParseCommand (pfx body : String) : String × List String :=
  let parts := (splitWsGo (strDrop body pfx.length).data []).map String.mk
  (strLower (parts.headD ""), parts.tail)

/-- C6 counterexample: on body `".say a<TAB>b"` with the default marker
`"."`, the code keeps the tab inside one token — args are `["a\tb"]` —
whereas splitting on runs of whitespace, as the claim states, would give
args `["a", "b"]`. -/
theorem parse_whitespace_claim_false :
    parseCommand "." ".say a\tb" = ("say", [String.mk ['a', '\t', 'b']]) ∧
    claimParseCommand "." ".say a\tb" = ("say", ["a", "b"]) ∧
    parseCommand "." ".say a\tb" ≠ claimParseCommand "." ".say a\tb" := by
  exact ⟨by decide, by decide, by decide⟩

theorem getLastD_data : ∀ (l : List String) (a : String),
    (l.map String.data).getLastD a.data = (l.getLastD a).data := by
  intro l
  induction l with
  | nil => intro a; rfl
  | cons x xs ih =>
    intro a
    rw [List.map_cons, List.getLastD_cons, List.getLastD_cons, ih]

/-- C6 amended: command parsing strips the marker, trims surrounding
whitespace, and splits the remainder on runs of SPACE characters — other
whitespace, e.g. a tab, stays inside its token; the first token,
lowercased, is the command name and the remaining tokens, in order, are
the args.  Stated as a round trip: parsing the marker followed by the
space-joined tokens recovers exactly those tokens. -/
theorem parse_space_split (pfx cmdTok : String) (args : List String)
    (hne : ∀ t ∈ cmdTok :: args, t.data ≠ [] ∧ ∀ ch ∈ t.data, ch ≠ ' ')
    (hhead : ∀ c, cmdTok.data.head? = some c → isJsWs c = false)
    (hlast : ∀ c, ((args.getLastD cmdTok).data).getLast? = some c → isJsWs c = false) :
    parseCommand pfx (pfx ++ joinSpace (cmdTok :: args)) = (strLower cmdTok, args) := by
  have e1 : strDrop (pfx ++ joinSpace (cmdTok :: args)) pfx.length
      = joinSpace (cmdTok :: args) := by
    apply String.ext
    rw [strDrop, data_mk, String.data_append]
    have : pfx.length = pfx.data.length := rfl
    rw [this, List.drop_left]
  have hdata : (joinSpace (cmdTok :: args)).data
      = joinSp ((cmdTok :: args).map String.data) := joinSpace_data _
  have htne : ∀ x ∈ (cmdTok :: args).map String.data, x ≠ [] ∧ ∀ ch ∈ x, ch ≠ ' ' := by
    intro x hx
    obtain ⟨t, ht, rfl⟩ := List.mem_map.mp hx
    exact hne t ht
  have hjh : ∀ c, (joinSp ((cmdTok :: args).map String.data)).head? = some c →
      isJsWs c = false := by
    intro c hc
    rw [List.map_cons, joinSp_head? _ _ (hne cmdTok (by simp)).1] at hc
    exact hhead c hc
  have hjl : ∀ c, (joinSp ((cmdTok :: args).map String.data)).getLast? = some c →
      isJsWs c = false := by
    intro c hc
    rw [List.map_cons,
      joinSp_getLast? _ _ (fun x hx => (htne x (by simpa [List.map_cons] using hx)).1),
      getLastD_data] at hc
    exact hlast c hc
  have e2 : jsTrim (joinSpace (cmdTok :: args)) = joinSpace (cmdTok :: args) := by
    apply String.ext
    rw [jsTrim, data_mk, hdata, jsTrimL_eq_self _ hjh hjl]
  have hsplit : splitGo (joinSp ((cmdTok :: args).map String.data)) [] false
      = (cmdTok :: args).map String.data :=
    splitGo_joinSp _ (by simp) htne
  have e3 : splitSpaces (joinSpace (cmdTok :: args)) = cmdTok :: args := by
    simp only [splitSpaces, splitSpacesL, hdata, hsplit, List.map_map]
    simp [mk_data, Function.comp_def]
  simp only [parseCommand, e1, e2, e3]
  rfl

/-- Witness for the amended C6: parsing `".Say a<TAB>b c"` with marker `"."`
yields command `"say"` and args `["a\tb", "c"]` — the tab stays inside the
first arg. -/
theorem parse_space_split_witness :
    parseCommand "." (".Say a\tb c") = ("say", ["a\tb", "c"]) := by
  have h := parse_space_split "." "Say" ["a\tb", "c"] (by decide) (by decide) (by decide)
  have he : ("." : String) ++ joinSpace ["Say", "a\tb", "c"] = ".Say a\tb c" := by decide
  rw [he] at h
  exact h.trans (by decide)

/-! ## Spam tracking (`src/main.js` lines 12–15 and 124–135) -/

/-- `spamThreshold = 5`: maximum messages per window. -/
def spamThreshold : Nat := 5

/-- `spamInterval = 10 * 1000` milliseconds. -/
def spamInterval : Int := 10 * 1000

/-- One entry of `spamTracker`: `{ count, firstMsgTime }`. -/
structure SenderWindow where
  count : Nat
  firstMsgTime : Int
deriving DecidableEq, Repr

/-- The rate-limiter verdict for one message. -/
inductive Verdict where
  | Allowed
  | SpamDetected
deriving DecidableEq, Repr

/-- Lines 124–135 of `src/main.js`: update the sender's window for a
message arriving at `now` and compute the verdict
(`count > spamThreshold` after the update). -/
def checkAndRecord (w : Option SenderWindow) (now : Int) : SenderWindow × Verdict :=
  let w' : SenderWindow :=
    match w with
    | none => { count := 1, firstMsgTime := now }
    | some prev =>
      if now - prev.firstMsgTime < spamInterval then
        { count := prev.count + 1, firstMsgTime := prev.firstMsgTime }
      else
        { count := 1, firstMsgTime := now }
  (w', if spamThreshold < w'.count then Verdict.SpamDetected else Verdict.Allowed)

/-- Run the rate limiter over a sequence of arrival times of one sender,
collecting the verdicts. -/
def runSpam : Option SenderWindow → List Int → List Verdict
  | _, [] => []
  | w, t :: ts =>
    let r := checkAndRecord w t
    r.2 :: runSpam (some r.1) ts

theorem runSpam_open_window (ts : List Int) : ∀ (c : Nat) (t0 : Int),
    (∀ t ∈ ts, t - t0 < spamInterval) →
    runSpam (some ⟨c, t0⟩) ts =
      (List.range ts.length).map
        (fun i => if spamThreshold < c + (i + 1) then Verdict.SpamDetected else Verdict.Allowed) := by
  induction ts with
  | nil => intro c t0 _; simp [runSpam]
  | cons t ts ih =>
    intro c t0 h
    have ht : t - t0 < spamInterval := h t (by simp)
    have hrest : ∀ u ∈ ts, u - t0 < spamInterval := fun u hu => h u (by simp [hu])
    have harith : ∀ i : Nat, (spamThreshold < c + 1 + (i + 1)) = (spamThreshold < c + (i + 1 + 1)) := by
      intro i
      have : c + 1 + (i + 1) = c + (i + 1 + 1) := by omega
      rw [this]
    simp only [runSpam, checkAndRecord, if_pos ht]
    rw [ih (c + 1) t0 hrest]
    simp only [List.length_cons, List.range_succ_eq_map, List.map_cons, List.map_map,
      Function.comp_def, harith, Nat.zero_add]

/-- C1: starting from no window, if every arrival stays within 10,000 ms of
the first arrival (the window's start), the per-sender rate-limit check
returns `Allowed` for the first 5 messages and `SpamDetected` for the 6th
and every later message of the still-open window; the comparison is a
strict `count > spamThreshold` on the post-update count. -/
theorem spam_window_verdicts (t0 : Int) (ts : List Int)
    (h : ∀ t ∈ ts, t0 ≤ t ∧ t - t0 < spamInterval) :
    runSpam none (t0 :: ts) =
      (List.range (ts.length + 1)).map
        (fun i => if spamThreshold < i + 1 then Verdict.SpamDetected else Verdict.Allowed) := by
  have h0 : ∀ t ∈ ts, t - t0 < spamInterval := fun t htm => (h t htm).2
  have harith : ∀ i : Nat, (spamThreshold < 1 + (i + 1)) = (spamThreshold < i + 1 + 1) := by
    intro i
    have : 1 + (i + 1) = i + 1 + 1 := by omega
    rw [this]
  simp only [runSpam, checkAndRecord]
  rw [runSpam_open_window ts 1 t0 h0]
  simp only [List.range_succ_eq_map, List.map_cons, List.map_map, Function.comp_def,
    harith, Nat.zero_add]

/-- Witness for C1: seven messages at times 0,1,…,6 give five `Allowed`
then two `SpamDetected`. -/
theorem spam_window_verdicts_witness :
    runSpam none [0, 1, 2, 3, 4, 5, 6] =
      [Verdict.Allowed, Verdict.Allowed, Verdict.Allowed, Verdict.Allowed,
       Verdict.Allowed, Verdict.SpamDetected, Verdict.SpamDetected] := by
  have := spam_window_verdicts 0 [1, 2, 3, 4, 5, 6] (by decide)
  exact this.trans (by decide)

/-! ## Link detector (`src/main.js` lines 156–157):
`linkRegex = /(https?:\/\/[^\s]+)/gi` and `linkRegex.test(message.body)`.
The regex is created afresh for every message, so the `g` flag's
`lastIndex` state is always 0. -/

/-- The literal characters of `http://`. -/
def httpChars : List Char := ['h', 't', 't', 'p', ':', '/', '/']

/-- The literal characters of `https://`. -/
def httpsChars : List Char := ['h', 't', 't', 'p', 's', ':', '/', '/']

/-- Case-insensitively strip the (lowercase) pattern `pat` from the front
of `l`, returning the rest on success. -/
def stripCI : List Char → List Char → Option (List Char)
  | [], l => some l
  | _ :: _, [] => none
  | c :: cs, d :: ds => if d.toLower = c then stripCI cs ds else none

/-- Does `https?://` followed by one non-whitespace character match at the
head of `l`?  (`https?` needs no backtracking: `s` and `:` are distinct.) -/
def hasProtoAt (l : List Char) : Bool :=
  (match stripCI httpChars l with
   | some (c :: _) => !isJsWs c
   | _ => false) ||
  (match stripCI httpsChars l with
   | some (c :: _) => !isJsWs c
   | _ => false)

/-- Scan every suffix for a match. -/
def linkAux : List Char → Bool
  | [] => false
  | c :: cs => hasProtoAt (c :: cs) || linkAux cs

/-- `linkRegex.test(body)`: does the body contain `https?://` followed by
at least one non-whitespace character (case-insensitive)? -/
def containsLink (s : String) : Bool := linkAux s.data

/-- The claim's reading of the link detector: some substring of the body
is `http://` or `https://` (case-insensitive) followed by a
non-whitespace character. -/
def SpecContainsLink (s : String) : Prop :=
  ∃ (pre m : List Char) (c : Char) (rest : List Char),
    s.data = pre ++ m ++ c :: rest ∧
    (m.map Char.toLower = httpChars ∨ m.map Char.toLower = httpsChars) ∧
    isJsWs c = false

theorem stripCI_eq_some (pat : List Char) : ∀ (l r : List Char),
    stripCI pat l = some r ↔ ∃ m, l = m ++ r ∧ m.map Char.toLower = pat := by
  induction pat with
  | nil =>
    intro l r
    constructor
    · intro h
      have hlr : l = r := by simpa [stripCI] using h
      exact ⟨[], by simp [hlr], rfl⟩
    · rintro ⟨m, hl, hm⟩
      have : m = [] := by simpa using hm
      subst this
      simpa [stripCI] using hl
  | cons c cs ih =>
    intro l r
    cases l with
    | nil =>
      simp only [stripCI]
      constructor
      · intro h; cases h
      · rintro ⟨m, hl, hm⟩
        cases m with
        | nil => simp at hm
        | cons d ds => simp at hl
    | cons d ds =>
      simp only [stripCI]
      by_cases hd : d.toLower = c
      · rw [if_pos hd]
        rw [ih ds r]
        constructor
        · rintro ⟨m, hm1, hm2⟩
          exact ⟨d :: m, by simp [hm1], by simp [hm2, hd]⟩
        · rintro ⟨m, hl, hm⟩
          cases m with
          | nil => simp at hm
          | cons e es =>
            simp only [List.cons_append, List.cons.injEq] at hl
            simp only [List.map_cons, List.cons.injEq] at hm
            exact ⟨es, hl.2, hm.2⟩
      · rw [if_neg hd]
        constructor
        · intro h; cases h
        · rintro ⟨m, hl, hm⟩
          cases m with
          | nil => simp at hm
          | cons e es =>
            simp only [List.cons_append, List.cons.injEq] at hl
            simp only [List.map_cons, List.cons.injEq] at hm
            exact absurd (hl.1 ▸ hm.1) hd

theorem hasProtoAt_iff (l : List Char) :
    hasProtoAt l = true ↔
      ∃ (m : List Char) (c : Char) (rest : List Char),
        l = m ++ c :: rest ∧
        (m.map Char.toLower = httpChars ∨ m.map Char.toLower = httpsChars) ∧
        isJsWs c = false := by
  have branch : ∀ pat : List Char,
      (match stripCI pat l with
       | some (c :: _) => !isJsWs c
       | _ => false) = true ↔
      ∃ (m : List Char) (c : Char) (rest : List Char),
        l = m ++ c :: rest ∧ m.map Char.toLower = pat ∧ isJsWs c = false := by
    intro pat
    constructor
    · intro h
      rcases hs : stripCI pat l with _ | r
      · rw [hs] at h; cases h
      · cases r with
        | nil => rw [hs] at h; cases h
        | cons c cr =>
          rw [hs] at h
          obtain ⟨m, hl, hm⟩ := (stripCI_eq_some pat l (c :: cr)).mp hs
          exact ⟨m, c, cr, hl, hm, by simpa using h⟩
    · rintro ⟨m, c, rest, hl, hm, hc⟩
      have : stripCI pat l = some (c :: rest) :=
        (stripCI_eq_some pat l (c :: rest)).mpr ⟨m, hl, hm⟩
      rw [this]
      simp [hc]
  rw [hasProtoAt, Bool.or_eq_true, branch httpChars, branch httpsChars]
  constructor
  · rintro (⟨m, c, rest, hl, hm, hc⟩ | ⟨m, c, rest, hl, hm, hc⟩)
    · exact ⟨m, c, rest, hl, Or.inl hm, hc⟩
    · exact ⟨m, c, rest, hl, Or.inr hm, hc⟩
  · rintro ⟨m, c, rest, hl, hm | hm, hc⟩
    · exact Or.inl ⟨m, c, rest, hl, hm, hc⟩
    · exact Or.inr ⟨m, c, rest, hl, hm, hc⟩

theorem linkAux_iff (l : List Char) :
    linkAux l = true ↔ ∃ pre suf, l = pre ++ suf ∧ hasProtoAt suf = true := by
  induction l with
  | nil =>
    simp only [linkAux]
    constructor
    · intro h; cases h
    · rintro ⟨pre, suf, hl, hp⟩
      have hsuf : suf = [] := by
        rcases List.append_eq_nil.mp hl.symm with ⟨_, h2⟩; exact h2
      subst hsuf
      rw [hasProtoAt] at hp
      simp [stripCI, httpChars, httpsChars] at hp
  | cons c cs ih =>
    simp only [linkAux, Bool.or_eq_true, ih]
    constructor
    · rintro (h | ⟨pre, suf, hl, hp⟩)
      · exact ⟨[], c :: cs, rfl, h⟩
      · exact ⟨c :: pre, suf, by simp [hl], hp⟩
    · rintro ⟨pre, suf, hl, hp⟩
      cases pre with
      | nil => exact Or.inl (by simpa using hl ▸ hp)
      | cons d ds =>
        simp only [List.cons_append, List.cons.injEq] at hl
        exact Or.inr ⟨ds, suf, hl.2, hp⟩

/-! ## Data model of the pipeline (`src/main.js` lines 7–24 and 118–361) -/

/-- Outbound effects attempted by the handler: `message.reply`,
`client.sendMessage(origin, text, mentions)`, `message.delete(true)`,
`client.setProfileStatus` and `chat.removeParticipants`. -/
inductive BotAction where
  | Reply (text : String)
  | SendToOrigin (origin text : String) (mentions : List String)
  | DeleteMessage
  | SetBio (text : String)
  | RemoveParticipant (id : String)
deriving DecidableEq, Repr

/-- The chat object returned by `message.getChat()`, as `groupinfo` and
`kick` read it (`description = ""` stands for an absent description). -/
structure ChatInfo where
  name : String
  participants : List String
  description : String
deriving DecidableEq, Repr

/-- Ambient inputs of one handler pass: the clock (`Date.now()`), the
rendered local time (`toLocaleTimeString`), the random draws
(`randPick n` stands for `Math.floor(Math.random() * n)`), the external
expression evaluator of `calc` (`none` when `eval` throws), the chat
object, and which removals reject. -/
structure Env where
  now : Int
  timeString : String
  randPick : Nat → Nat
  evalFn : String → Option String
  chat : ChatInfo
  kickFails : String → Bool

/-- One inbound message event. -/
structure Msg where
  author : Option String
  origin : String
  body : String
  mentionedIds : List String
deriving DecidableEq, Repr

/-- Process-wide mutable state: the command marker (line 8, initially
`"."`), the immutable start time (line 10), and the spam tracker map
(line 13). -/
structure BotState where
  cmdPfx : String
  botStartTime : Int
  spamTracker : String → Option SenderWindow

/-- Line 120: `const sender = message.author || message.from`
(JavaScript falsiness: an empty author also falls back). -/
def senderOf (msg : Msg) : String :=
  match msg.author with
  | some a => if a = "" then msg.origin else a
  | none => msg.origin

/-- `message.from.includes('@g.us')`. -/
def isGroup (msg : Msg) : Bool := strIncludes msg.origin "@g.us"

/-- C5: the link detector is a pure predicate on the body, true exactly
when the body contains a case-insensitive `https?://` followed by at
least one non-whitespace character; it accepts
"check this out http://example.com/x" and rejects "no links here". -/
theorem link_detector_spec :
    (∀ s : String, containsLink s = true ↔ SpecContainsLink s) ∧
    containsLink "check this out http://example.com/x" = true ∧
    containsLink "no links here" = false := by
  refine ⟨?_, by decide, by decide⟩
  intro s
  rw [containsLink, linkAux_iff, SpecContainsLink]
  constructor
  · rintro ⟨pre, suf, hl, hp⟩
    obtain ⟨m, c, rest, hsuf, hm, hc⟩ := (hasProtoAt_iff suf).mp hp
    exact ⟨pre, m, c, rest, by rw [hl, hsuf, List.append_assoc], hm, hc⟩
  · rintro ⟨pre, m, c, rest, hl, hm, hc⟩
    exact ⟨pre, m ++ c :: rest, by rw [hl, List.append_assoc],
      (hasProtoAt_iff _).mpr ⟨m, c, rest, rfl, hm, hc⟩⟩

/-- Witness for C5: the detector accepts the example body containing a
link. -/
theorem link_detector_spec_witness :
    containsLink "check this out http://example.com/x" = true :=
  link_detector_spec.2.1


/-! ## Command router (`src/main.js` lines 44–51 and 181–352) -/

/-- The hour/minute/second decomposition computed by `formatUptime`
(lines 44–49): `Math.floor` division by 1000, 60, 60, then `%= 60` on
seconds and minutes. -/
def uptimeParts (ms : Int) : Int × Int × Int :=
  let seconds := Int.fdiv ms 1000
  let minutes := Int.fdiv seconds 60
  let hours := Int.fdiv minutes 60
  (hours, Int.tmod minutes 60, Int.tmod seconds 60)

/-- Lines 44–51: `${hours}h ${minutes}m ${seconds}s`. -/
def formatUptime (ms : Int) : String :=
  toString (uptimeParts ms).1 ++ "h " ++ toString (uptimeParts ms).2.1 ++ "m " ++
    toString (uptimeParts ms).2.2 ++ "s"

/-- Lines 187–201, with the current command marker spliced into the
`setprefix` line. -/
def helpText (p : String) : String :=
  "*Bot Commands:*\n" ++
  "• `.ping` - Check bot responsiveness.\n" ++
  "• `.help` - Show this help message.\n" ++
  "• `.say <message>` - Echo the message.\n" ++
  "• `.roll` - Roll a random number between 1 and 100.\n" ++
  "• `.uptime` - Show how long the bot has been running.\n" ++
  "• `.setbio [text]` - Update bot bio/status.\n" ++
  "• `.setprefix <newPrefix>` - Change the command prefix (current: " ++ p ++ ").\n" ++
  "• `.groupinfo` - Get information about the current group.\n" ++
  "• `.calc <expression>` - Evaluate a mathematical expression.\n" ++
  "• `.weather <city>` - Get a dummy weather forecast.\n" ++
  "• `.quote` - Receive a random inspirational quote.\n" ++
  "• `.fact` - Get a random fact.\n" ++
  "• `.kick @user` - Kick a mentioned user from the group.\n"

/-- Lines 304–310. -/
def quotes : List String :=
  ["Believe you can and you're halfway there.",
   "Your limitation—it's only your imagination.",
   "Push yourself, because no one else is going to do it for you.",
   "Great things never come from comfort zones.",
   "Dream it. Wish it. Do it."]

/-- Lines 317–323. -/
def facts : List String :=
  ["Honey never spoils.",
   "A single strand of spaghetti is called a spaghetto.",
   "Octopuses have three hearts.",
   "Bananas are berries, but strawberries aren't.",
   "The Eiffel Tower can be 15 cm taller during hot days."]

/-- Lines 339–347: per mentioned id, attempt the removal and reply with
success or failure depending on whether `removeParticipants` rejects. -/
def kickActions (env : Env) : List String → List BotAction
  | [] => []
  | id :: ids =>
    BotAction.RemoveParticipant id ::
    BotAction.Reply (if env.kickFails id
      then "Failed to kick @" ++ beforeAt id ++ "."
      else "User @" ++ beforeAt id ++ " has been kicked from the group.") ::
    kickActions env ids

/-- The `switch (command)` of lines 181–352: dispatch one parsed command,
producing the attempted outbound actions and the state after the handler. -/
def route (cmd : String) (args : List String) (st : BotState) (msg : Msg) (env : Env) :
    List BotAction × BotState :=
  match cmd with
  | "ping" => ([BotAction.Reply "pong"], st)
  | "help" => ([BotAction.Reply (helpText st.cmdPfx)], st)
  | "say" =>
    if 0 < args.length then ([BotAction.Reply (joinSpace args)], st)
    else ([BotAction.Reply "You didn't provide any message to echo!"], st)
  | "roll" => ([BotAction.Reply ("You rolled: " ++ toString (env.randPick 100 + 1))], st)
  | "uptime" =>
    ([BotAction.Reply ("Bot has been running for: " ++ formatUptime (env.now - st.botStartTime))],
     st)
  | "setbio" =>
    if joinSpace args ≠ "" then
      ([BotAction.SetBio (joinSpace args),
        BotAction.Reply ("Bio updated to: " ++ joinSpace args)], st)
    else
      ([BotAction.SetBio ("Bot Active | Updated at " ++ env.timeString),
        BotAction.Reply "Bio auto-updated with current time."], st)
  | "setprefix" =>
    match args with
    | [p] => ([BotAction.Reply ("Command prefix updated to: " ++ p)], { st with cmdPfx := p })
    | _ => ([BotAction.Reply "Usage: .setprefix <newPrefix>"], st)
  | "status" =>
    ([BotAction.Reply ("*Bot Status:*\n• Uptime: " ++ formatUptime (env.now - st.botStartTime) ++
      "\n• Current Time: " ++ env.timeString ++ "\n• Command Prefix: " ++ st.cmdPfx ++ "\n")],
     st)
  | "groupinfo" =>
    if !(isGroup msg) then ([BotAction.Reply "This command can only be used in groups."], st)
    else
      ([BotAction.Reply ("*Group Info:*\nSubject: " ++ env.chat.name ++
        "\nParticipants: " ++ toString env.chat.participants.length ++
        "\nDescription: " ++
        (if env.chat.description = "" then "No description provided."
         else env.chat.description))], st)
  | "calc" =>
    if args.length = 0 then ([BotAction.Reply "Usage: .calc <expression>"], st)
    else
      match env.evalFn (joinSpace args) with
      | some r => ([BotAction.Reply ("Result: " ++ r)], st)
      | none => ([BotAction.Reply "Invalid expression."], st)
  | "weather" =>
    if args.length = 0 then ([BotAction.Reply "Usage: .weather <city>"], st)
    else
      ([BotAction.Reply ("The current temperature in " ++ joinSpace args ++ " is " ++
        toString (env.randPick 30 + 10) ++ "°C with clear skies.")], st)
  | "quote" => ([BotAction.Reply (quotes.getD (env.randPick quotes.length) "")], st)
  | "fact" => ([BotAction.Reply (facts.getD (env.randPick facts.length) "")], st)
  | "kick" =>
    if !(isGroup msg) then ([BotAction.Reply "This command can only be used in groups."], st)
    else if msg.mentionedIds.isEmpty then
      ([BotAction.Reply "Please mention a user to kick."], st)
    else (kickActions env msg.mentionedIds, st)
  | _ => ([BotAction.Reply "Unknown command. Type `.help` for a list of commands."], st)

/-! ## Moderation pipeline (`src/main.js` lines 118–361) -/

/-- Lines 136–149: the actions of the spam stage. -/
def spamActions (msg : Msg) : List BotAction :=
  if isGroup msg then
    [BotAction.DeleteMessage,
     BotAction.SendToOrigin msg.origin ("@" ++ senderOf msg ++ " Please stop spamming!")
       [senderOf msg]]
  else [BotAction.Reply "You're sending messages too quickly. Please slow down."]

/-- Lines 158–165: the actions of the link stage. -/
def linkActions (msg : Msg) : List BotAction :=
  [BotAction.DeleteMessage,
   BotAction.SendToOrigin msg.origin ("@" ++ senderOf msg ++ " Links are not allowed in this group!")
     [senderOf msg]]

/-- Lines 356–360: the greeting stage. -/
def greetingActions (msg : Msg) : List BotAction :=
  if strIncludes (strLower msg.body) "hello" || strIncludes (strLower msg.body) "hi" ||
      strIncludes (strLower msg.body) "hey" then
    [BotAction.Reply "Hello there! How can I help you today?"]
  else []

/-- Lines 124–134: the state after the spam-tracker update for this
message. -/
def trackAfter (st : BotState) (msg : Msg) (env : Env) : BotState :=
  let r := checkAndRecord (st.spamTracker (senderOf msg)) env.now
  { st with spamTracker := fun s => if s = senderOf msg then some r.1 else st.spamTracker s }

/-- The whole `message_create` handler (lines 118–361): update the spam
tracker, then spam stage, link stage, command stage, greeting stage, in
that order with early return. -/
def handle (st : BotState) (msg : Msg) (env : Env) : List BotAction × BotState :=
  let r := checkAndRecord (st.spamTracker (senderOf msg)) env.now
  let st1 := trackAfter st msg env
  if spamThreshold < r.1.count then
    (spamActions msg, st1)
  else if !(strStartsWith msg.body st1.cmdPfx) && isGroup msg && containsLink msg.body then
    (linkActions msg, st1)
  else if strStartsWith msg.body st1.cmdPfx then
    route (parseCommand st1.cmdPfx msg.body).1 (parseCommand st1.cmdPfx msg.body).2 st1 msg env
  else
    (greetingActions msg, st1)

/-- Lines 8–13: the state at process start. -/
def initialBotState (startTime : Int) : BotState :=
  { cmdPfx := ".", botStartTime := startTime, spamTracker := fun _ => none }

/-! ## Helper facts about the router and the pipeline -/

theorem trackAfter_cmdPfx (st : BotState) (msg : Msg) (env : Env) :
    (trackAfter st msg env).cmdPfx = st.cmdPfx := rfl

theorem kickActions_shape (env : Env) : ∀ (ids : List String), ∀ a ∈ kickActions env ids,
    (∃ i, a = BotAction.RemoveParticipant i) ∨ (∃ t, a = BotAction.Reply t) := by
  intro ids
  induction ids with
  | nil => intro a ha; simp [kickActions] at ha
  | cons id rest ih =>
    intro a ha
    simp only [kickActions, List.mem_cons] at ha
    rcases ha with h | h | h
    · exact Or.inl ⟨id, h⟩
    · exact Or.inr ⟨_, h⟩
    · exact ih a h

theorem greetingActions_shape (msg : Msg) :
    ∀ a ∈ greetingActions msg, ∃ t, a = BotAction.Reply t := by
  intro a ha
  rw [greetingActions] at ha
  split at ha
  · simp only [List.mem_singleton] at ha
    exact ⟨_, ha⟩
  · simp at ha

theorem route_shape (cmd : String) (args : List String) (st : BotState) (msg : Msg)
    (env : Env) : ∀ a ∈ (route cmd args st msg env).1,
    (∃ t, a = BotAction.Reply t) ∨ (∃ t, a = BotAction.SetBio t) ∨
    (∃ i, a = BotAction.RemoveParticipant i) := by
  intro a ha
  unfold route at ha
  repeat' split at ha
  all_goals dsimp only at ha
  all_goals
    first
    | (simp only [List.mem_cons, List.mem_singleton, List.not_mem_nil, or_false] at ha
       obtain rfl | rfl := ha <;>
         first
         | exact Or.inl ⟨_, rfl⟩
         | exact Or.inr (Or.inl ⟨_, rfl⟩))
    | (rcases kickActions_shape env msg.mentionedIds a ha with ⟨i, rfl⟩ | ⟨t, rfl⟩
       · exact Or.inr (Or.inr ⟨i, rfl⟩)
       · exact Or.inl ⟨t, rfl⟩)

theorem route_cmdPfx_preserved (cmd : String) (args : List String) (st : BotState)
    (msg : Msg) (env : Env) (hargs : ∀ a ∈ args, a ≠ "") (h : st.cmdPfx ≠ "") :
    (route cmd args st msg env).2.cmdPfx ≠ "" := by
  unfold route
  repeat' split
  any_goals exact h
  rename_i p
  exact hargs p (by simp)

/-- Sample inputs used by the concrete instantiations below. -/
def sampleEnv : Env :=
  { now := 0, timeString := "00:00:00", randPick := fun _ => 0,
    evalFn := fun _ => none,
    chat := { name := "G", participants := [], description := "" },
    kickFails := fun _ => false }

/-- A direct (non-group) message. -/
def dmMsg (body : String) : Msg :=
  { author := none, origin := "111@c.us", body := body, mentionedIds := [] }

/-- A group message with an author. -/
def groupMsg (body : String) : Msg :=
  { author := some "u1@c.us", origin := "g1@g.us", body := body, mentionedIds := [] }

theorem route_spamTracker (cmd : String) (args : List String) (st : BotState)
    (msg : Msg) (env : Env) :
    (route cmd args st msg env).2.spamTracker = st.spamTracker := by
  unfold route
  repeat' split
  all_goals rfl

theorem handle_spamTracker (st : BotState) (msg : Msg) (env : Env) :
    (handle st msg env).2.spamTracker (senderOf msg) =
      some (checkAndRecord (st.spamTracker (senderOf msg)) env.now).1 := by
  simp only [handle]
  split
  · simp [trackAfter]
  · split
    · simp [trackAfter]
    · split
      · rw [route_spamTracker]
        simp [trackAfter]
      · simp [trackAfter]

/-- C2: if a sender has an existing window started at `t0` and the next
message arrives at `env.now` with `env.now - t0 ≥ 10,000` ms, the check
resets the window (`count = 1`, `firstMsgTime = now`) with verdict
`Allowed`, whatever the old count was, and processing that message
through the handler indeed stores the reset window for the sender. -/
theorem spam_window_reset (c : Nat) (t0 : Int) (st : BotState) (msg : Msg) (env : Env)
    (hw : st.spamTracker (senderOf msg) = some ⟨c, t0⟩)
    (h : spamInterval ≤ env.now - t0) :
    checkAndRecord (st.spamTracker (senderOf msg)) env.now = (⟨1, env.now⟩, Verdict.Allowed) ∧
    (handle st msg env).2.spamTracker (senderOf msg) = some ⟨1, env.now⟩ := by
  have h1 : checkAndRecord (some ⟨c, t0⟩) env.now = (⟨1, env.now⟩, Verdict.Allowed) := by
    have hnot : ¬ env.now - t0 < spamInterval := not_lt.mpr h
    simp [checkAndRecord, hnot, spamThreshold]
  refine ⟨by rw [hw]; exact h1, ?_⟩
  rw [handle_spamTracker, hw, h1]

/-- A state whose tracker holds a stale window (count 100, started at
time 0) for the direct-message sender. -/
def staleState : BotState :=
  { cmdPfx := ".", botStartTime := 0,
    spamTracker := fun s => if s = "111@c.us" then some ⟨100, 0⟩ else none }

/-- The sample environment at time 10,000 ms. -/
def lateEnv : Env := { sampleEnv with now := 10000 }

/-- Witness for C2: the count-100 window started at time 0 resets on a
message at time 10,000 and the handler stores the reset window. -/
theorem spam_window_reset_witness :
    checkAndRecord (staleState.spamTracker (senderOf (dmMsg "x"))) lateEnv.now
      = (⟨1, 10000⟩, Verdict.Allowed) ∧
    (handle staleState (dmMsg "x") lateEnv).2.spamTracker (senderOf (dmMsg "x"))
      = some ⟨1, 10000⟩ :=
  spam_window_reset 100 0 staleState (dmMsg "x") lateEnv (by decide) (by decide)

/-- C3: the pipeline stages are mutually exclusive and ordered
spam → link → command → greeting: whichever stage first claims the
message fully determines the handler's output — in particular a command
invocation yields exactly the router's actions, with no greeting reply
appended. -/
theorem pipeline_stage_exclusive (st : BotState) (msg : Msg) (env : Env) :
    (spamThreshold < (checkAndRecord (st.spamTracker (senderOf msg)) env.now).1.count →
      handle st msg env = (spamActions msg, trackAfter st msg env)) ∧
    (¬ spamThreshold < (checkAndRecord (st.spamTracker (senderOf msg)) env.now).1.count →
      strStartsWith msg.body st.cmdPfx = false → isGroup msg = true →
      containsLink msg.body = true →
      handle st msg env = (linkActions msg, trackAfter st msg env)) ∧
    (¬ spamThreshold < (checkAndRecord (st.spamTracker (senderOf msg)) env.now).1.count →
      strStartsWith msg.body st.cmdPfx = true →
      handle st msg env =
        route (parseCommand st.cmdPfx msg.body).1 (parseCommand st.cmdPfx msg.body).2
          (trackAfter st msg env) msg env) ∧
    (¬ spamThreshold < (checkAndRecord (st.spamTracker (senderOf msg)) env.now).1.count →
      strStartsWith msg.body st.cmdPfx = false →
      (isGroup msg = false ∨ containsLink msg.body = false) →
      handle st msg env = (greetingActions msg, trackAfter st msg env)) := by
  refine ⟨?_, ?_, ?_, ?_⟩
  · intro h
    simp only [handle, trackAfter_cmdPfx]
    rw [if_pos h]
  · intro h h1 h2 h3
    simp only [handle, trackAfter_cmdPfx]
    rw [if_neg h, if_pos (by simp [h1, h2, h3])]
  · intro h h1
    simp only [handle, trackAfter_cmdPfx]
    rw [if_neg h, if_neg (by simp [h1]), if_pos h1]
  · intro h h1 h2
    simp only [handle, trackAfter_cmdPfx]
    rw [if_neg h, if_neg (by rcases h2 with h2 | h2 <;> simp [h1, h2]), if_neg (by simp [h1])]

/-- Witness for C3: a fresh sender sending ".ping" is claimed by the
command stage, so the handler output is exactly the router's output. -/
theorem pipeline_stage_exclusive_witness :
    handle (initialBotState 0) (dmMsg ".ping") sampleEnv =
      route (parseCommand (initialBotState 0).cmdPfx (dmMsg ".ping").body).1
        (parseCommand (initialBotState 0).cmdPfx (dmMsg ".ping").body).2
        (trackAfter (initialBotState 0) (dmMsg ".ping") sampleEnv) (dmMsg ".ping") sampleEnv := by
  exact (pipeline_stage_exclusive (initialBotState 0) (dmMsg ".ping") sampleEnv).2.2.1
    (by decide) (by decide)

/-- C4: for a non-spam message, the link-moderation actions (delete plus
one group notice mentioning the sender) are emitted exactly when the body
does not start with the command marker, the origin is a group, and the
body contains a link; otherwise the handler emits no deletion and no
group notice at all. -/
theorem link_stage_iff (st : BotState) (msg : Msg) (env : Env)
    (hns : ¬ spamThreshold < (checkAndRecord (st.spamTracker (senderOf msg)) env.now).1.count) :
    (strStartsWith msg.body st.cmdPfx = false ∧ isGroup msg = true ∧
        containsLink msg.body = true →
      (handle st msg env).1 =
        [BotAction.DeleteMessage,
         BotAction.SendToOrigin msg.origin
           ("@" ++ senderOf msg ++ " Links are not allowed in this group!") [senderOf msg]]) ∧
    (¬ (strStartsWith msg.body st.cmdPfx = false ∧ isGroup msg = true ∧
        containsLink msg.body = true) →
      BotAction.DeleteMessage ∉ (handle st msg env).1 ∧
      ∀ o t m, BotAction.SendToOrigin o t m ∉ (handle st msg env).1) := by
  constructor
  · rintro ⟨h1, h2, h3⟩
    simp only [handle, trackAfter_cmdPfx]
    rw [if_neg hns, if_pos (by simp [h1, h2, h3])]
    rfl
  · intro hn
    have hshape : ∀ a ∈ (handle st msg env).1,
        (∃ t, a = BotAction.Reply t) ∨ (∃ t, a = BotAction.SetBio t) ∨
        (∃ i, a = BotAction.RemoveParticipant i) := by
      intro a ha
      simp only [handle, trackAfter_cmdPfx] at ha
      rw [if_neg hns] at ha
      cases hsw : strStartsWith msg.body st.cmdPfx with
      | true =>
        rw [if_neg (by simp [hsw]), if_pos hsw] at ha
        exact route_shape _ _ _ _ _ a ha
      | false =>
        cases hgr : isGroup msg with
        | false =>
          rw [if_neg (by simp [hgr]), if_neg (by simp [hsw])] at ha
          obtain ⟨t, rfl⟩ := greetingActions_shape msg a ha
          exact Or.inl ⟨t, rfl⟩
        | true =>
          cases hlk : containsLink msg.body with
          | false =>
            rw [if_neg (by simp [hlk]), if_neg (by simp [hsw])] at ha
            obtain ⟨t, rfl⟩ := greetingActions_shape msg a ha
            exact Or.inl ⟨t, rfl⟩
          | true => exact absurd ⟨hsw, hgr, hlk⟩ hn
    constructor
    · intro hmem
      rcases hshape _ hmem with ⟨t, h⟩ | ⟨t, h⟩ | ⟨i, h⟩ <;> cases h
    · intro o t m hmem
      rcases hshape _ hmem with ⟨t', h⟩ | ⟨t', h⟩ | ⟨i, h⟩ <;> cases h

/-- Witness for C4: a fresh sender posting a plain link in a group gets
the deletion and the group notice. -/
theorem link_stage_iff_witness :
    (handle (initialBotState 0) (groupMsg "see http://x.io/a") sampleEnv).1 =
      [BotAction.DeleteMessage,
       BotAction.SendToOrigin "g1@g.us" ("@" ++ "u1@c.us" ++ " Links are not allowed in this group!")
         ["u1@c.us"]] := by
  exact (link_stage_iff (initialBotState 0) (groupMsg "see http://x.io/a") sampleEnv
    (by decide)).1 (by refine ⟨by decide, by decide, by decide⟩)

/-- C7: `setprefix` with exactly one arg replies with a confirmation and
sets the marker to that arg; with any other arg count it replies with the
usage notice and leaves the state untouched. -/
theorem setprefix_contract (args : List String) (st : BotState) (msg : Msg) (env : Env) :
    ((∃ p, args = [p]) →
      route "setprefix" args st msg env =
        ([BotAction.Reply ("Command prefix updated to: " ++ args.headD "")],
         { st with cmdPfx := args.headD "" })) ∧
    (args.length ≠ 1 →
      route "setprefix" args st msg env =
        ([BotAction.Reply "Usage: .setprefix <newPrefix>"], st)) := by
  constructor
  · rintro ⟨p, rfl⟩
    rfl
  · intro h
    cases args with
    | nil => rfl
    | cons a rest =>
      cases rest with
      | nil => simp at h
      | cons b rest2 => rfl

/-- Witness for C7: `setprefix` with the single arg "!" updates the
marker and confirms. -/
theorem setprefix_contract_witness :
    route "setprefix" ["!"] (initialBotState 0) (dmMsg ".setprefix !") sampleEnv =
      ([BotAction.Reply ("Command prefix updated to: " ++ "!")],
       { initialBotState 0 with cmdPfx := "!" }) := by
  exact (setprefix_contract ["!"] (initialBotState 0) (dmMsg ".setprefix !") sampleEnv).1
    ⟨"!", rfl⟩

/-- C8: the command marker is non-empty at start and stays non-empty
across every handler pass — in particular `setprefix` can never set it to
the empty string, because parsed args are never empty tokens. -/
theorem cmdPfx_nonempty_invariant :
    (∀ t : Int, (initialBotState t).cmdPfx ≠ "") ∧
    (∀ (st : BotState) (msg : Msg) (env : Env), st.cmdPfx ≠ "" →
      (handle st msg env).2.cmdPfx ≠ "") := by
  constructor
  · intro t
    simp [initialBotState]
  · intro st msg env h
    simp only [handle, trackAfter_cmdPfx]
    split
    · exact h
    · split
      · exact h
      · split
        · exact route_cmdPfx_preserved _ _ _ _ _ (parseCommand_args_ne st.cmdPfx msg.body) h
        · exact h

/-- Witness for C8: after processing ".setprefix !" from the initial
state the marker is still non-empty. -/
theorem cmdPfx_nonempty_invariant_witness :
    (handle (initialBotState 0) (dmMsg ".setprefix !") sampleEnv).2.cmdPfx ≠ "" := by
  exact cmdPfx_nonempty_invariant.2 (initialBotState 0) (dmMsg ".setprefix !") sampleEnv
    (by decide)

/-- C9: the uptime command replies with the elapsed time since start
rendered by `formatUptime` as hours/minutes/seconds, and for every
duration `d ≥ 0` the decomposition satisfies
`hours*3600 + minutes*60 + seconds = ⌊d/1000⌋` with
`0 ≤ minutes < 60` and `0 ≤ seconds < 60`. -/
theorem uptime_contract :
    (∀ (args : List String) (st : BotState) (msg : Msg) (env : Env),
      route "uptime" args st msg env =
        ([BotAction.Reply ("Bot has been running for: " ++
          formatUptime (env.now - st.botStartTime))], st)) ∧
    (∀ d : Int, 0 ≤ d →
      (uptimeParts d).1 * 3600 + (uptimeParts d).2.1 * 60 + (uptimeParts d).2.2 = d.fdiv 1000 ∧
      0 ≤ (uptimeParts d).2.1 ∧ (uptimeParts d).2.1 < 60 ∧
      0 ≤ (uptimeParts d).2.2 ∧ (uptimeParts d).2.2 < 60 ∧
      formatUptime d = toString (uptimeParts d).1 ++ "h " ++ toString (uptimeParts d).2.1 ++
        "m " ++ toString (uptimeParts d).2.2 ++ "s") := by
  constructor
  · intro args st msg env
    rfl
  · intro d hd
    have h1000 : (0 : Int) ≤ 1000 := by decide
    have h60 : (0 : Int) ≤ 60 := by decide
    have hsec : Int.fdiv d 1000 = d / 1000 := Int.fdiv_eq_ediv d h1000
    have hsecnn : 0 ≤ d / 1000 := Int.ediv_nonneg hd h1000
    have hmin : Int.fdiv (Int.fdiv d 1000) 60 = d / 1000 / 60 := by
      rw [hsec]; exact Int.fdiv_eq_ediv _ h60
    have hminnn : 0 ≤ d / 1000 / 60 := Int.ediv_nonneg hsecnn h60
    have hhr : Int.fdiv (Int.fdiv (Int.fdiv d 1000) 60) 60 = d / 1000 / 60 / 60 := by
      rw [hmin]; exact Int.fdiv_eq_ediv _ h60
    have hm : Int.tmod (Int.fdiv (Int.fdiv d 1000) 60) 60 = d / 1000 / 60 % 60 := by
      rw [hmin]; exact Int.tmod_eq_emod hminnn h60
    have hs : Int.tmod (Int.fdiv d 1000) 60 = d / 1000 % 60 := by
      rw [hsec]; exact Int.tmod_eq_emod hsecnn h60
    refine ⟨?_, ?_, ?_, ?_, ?_, rfl⟩
    · show Int.fdiv (Int.fdiv (Int.fdiv d 1000) 60) 60 * 3600 +
        Int.tmod (Int.fdiv (Int.fdiv d 1000) 60) 60 * 60 + Int.tmod (Int.fdiv d 1000) 60
        = Int.fdiv d 1000
      rw [hhr, hm, hs, hsec]
      omega
    · show 0 ≤ Int.tmod (Int.fdiv (Int.fdiv d 1000) 60) 60
      rw [hm]; omega
    · show Int.tmod (Int.fdiv (Int.fdiv d 1000) 60) 60 < 60
      rw [hm]; omega
    · show 0 ≤ Int.tmod (Int.fdiv d 1000) 60
      rw [hs]; omega
    · show Int.tmod (Int.fdiv d 1000) 60 < 60
      rw [hs]; omega

/-- Witness for C9: for 3,723,005 ms (1 h 2 min 3 s and a bit) the
decomposition recombines to ⌊d/1000⌋ = 3723. -/
theorem uptime_contract_witness :
    (uptimeParts 3723005).1 * 3600 + (uptimeParts 3723005).2.1 * 60 + (uptimeParts 3723005).2.2
      = (3723005 : Int).fdiv 1000 := by
  exact (uptime_contract.2 3723005 (by decide)).1

theorem result_ne_invalid (r : String) : ("Result: " ++ r) ≠ "Invalid expression." := by
  intro h
  have hd := congrArg String.data h
  rw [String.data_append] at hd
  have h2 : "Result: ".data = ['R', 'e', 's', 'u', 'l', 't', ':', ' '] := rfl
  rw [h2] at hd
  have h3 : "Invalid expression.".data =
    'I' :: "nvalid expression.".data := rfl
  rw [h3] at hd
  simp only [List.cons_append, List.cons.injEq] at hd
  exact absurd hd.1 (by decide)

/-- C10: `calc` with zero args replies only with the usage notice (no
evaluation is attempted — the output does not depend on the evaluator),
and the "Invalid expression." reply appears exactly when at least one arg
is present and evaluating the joined args fails. -/
theorem calc_usage_contract (args : List String) (st : BotState) (msg : Msg) (env : Env) :
    (args = [] →
      route "calc" args st msg env = ([BotAction.Reply "Usage: .calc <expression>"], st)) ∧
    (BotAction.Reply "Invalid expression." ∈ (route "calc" args st msg env).1 ↔
      args ≠ [] ∧ env.evalFn (joinSpace args) = none) := by
  constructor
  · rintro rfl
    rfl
  · cases args with
    | nil => simp [route]
    | cons a rest =>
      cases he : env.evalFn (joinSpace (a :: rest)) with
      | some r =>
        have hne : "Invalid expression." ≠ "Result: " ++ r :=
          fun hx => result_ne_invalid r hx.symm
        simp [route, he, hne]
      | none => simp [route, he]

/-- Witness for C10: `calc` with no args replies with the usage notice. -/
theorem calc_usage_contract_witness :
    route "calc" [] (initialBotState 0) (dmMsg ".calc") sampleEnv =
      ([BotAction.Reply "Usage: .calc <expression>"], initialBotState 0) := by
  exact (calc_usage_contract [] (initialBotState 0) (dmMsg ".calc") sampleEnv).1 rfl
